import Mathlib

/-!
Verification of the Bitswap 1.2.0 responder and DHT advertiser core
(`client/network/src/ipfs/`): a shallow embedding of the CID prefix codec
(`bitswap/cid_prefix.rs`), the per-connection Bitswap responder state
machine (`bitswap/core.rs`), the indexed-transactions block provider
adapter (`block_provider.rs`), and the DHT behaviour's address admission
(`dht.rs`), together with theorems settling the specification's claims
about them.

External crates (`cid`, `prost`, `hashlink`, `ip_network`, libp2p) are
modelled at their interface:
* a `Cid` / `Multihash` is its record of fields; `Cid.toBytes` follows the
  standard CID binary layout that the `cid` crate implements;
* unsigned varints follow the LEB128 layout of `unsigned_varint::encode`;
* protobuf (de)serialisation by `prost` is abstracted away: the handlers
  here consume and produce already-decoded `Message` records;
* `hashlink`'s `LinkedHashMap.replace` / `LinkedHashSet.replace` keep an
  existing key at its position and update its value, and `pop_front`
  removes the oldest entry, as documented by the crate and by the
  comments in `core.rs`;
* `ip_network`'s `is_global` and the IP address types are abstracted as
  boolean predicate parameters;
* `Kademlia::add_address` is modelled as appending to a routing table
  list.
-/

set_option autoImplicit false

namespace Ipfs

/-- LEB128 unsigned varint encoding of `n`, as produced by
`unsigned_varint::encode::u64`: low 7 bits first, high bit of each byte
set while more bytes follow. The fuel argument makes the recursion
structural; `fuel = n + 1` always suffices since the value shrinks by a
factor of 128 each step. -/
def varintAux : Nat → Nat → List Nat
  | 0, _ => []
  | _ + 1, n => if n < 128 then [n] else (n % 128 + 128) :: varintAux n (n / 128)

/-- LEB128 unsigned varint encoding of `n`. -/
def varint (n : Nat) : List Nat :=
  varintAux (n + 1) n

/-- A multihash: hash-function code, digest size and digest bytes. The
`multihash` crate maintains `digest.length = size`; we carry both fields
and state that invariant as a hypothesis where needed. -/
structure Multihash where
  code : Nat
  size : Nat
  digest : List Nat
  deriving DecidableEq, Repr

/-- The serialised form of a multihash: `varint(code) ‖ varint(size) ‖
digest`. -/
def Multihash.toBytes (mh : Multihash) : List Nat :=
  varint mh.code ++ varint mh.size ++ mh.digest

/-- CID versions, as in the `cid` crate's `Version` enum. -/
inductive Version
  | v0
  | v1
  deriving DecidableEq, Repr

/-- The numeric value of a CID version (`u64::from(version)`). -/
def Version.toNat : Version → Nat
  | .v0 => 0
  | .v1 => 1

/-- A CID: version, codec and multihash. -/
structure Cid where
  version : Version
  codec : Nat
  hash : Multihash
  deriving DecidableEq, Repr

/-- `Cid::to_bytes` of the `cid` crate: a V0 CID is serialised as its bare
multihash; a V1 CID as `varint(version) ‖ varint(codec) ‖ multihash`. -/
def Cid.toBytes (c : Cid) : List Nat :=
  match c.version with
  | .v0 => c.hash.toBytes
  | .v1 => varint c.version.toNat ++ varint c.codec ++ c.hash.toBytes

/-- All the metadata of a CID, without the actual digest
(`CidPrefix` in `bitswap/cid_prefix.rs`). -/
structure CidPrefixData where
  version : Version
  codec : Nat
  hashCode : Nat
  hashSize : Nat
  deriving DecidableEq, Repr

/-- `CidPrefix::to_bytes`: the encoded bytes of the CID prefix. Version
and codec varints are omitted for V0. -/
def CidPrefixData.toBytes (p : CidPrefixData) : List Nat :=
  (if p.version ≠ Version.v0 then varint p.version.toNat ++ varint p.codec else [])
    ++ varint p.hashCode ++ varint p.hashSize

/-- `impl From<&Cid> for CidPrefix`: project the four fields. -/
def CidPrefixData.fromCid (c : Cid) : CidPrefixData :=
  { version := c.version
    codec := c.codec
    hashCode := c.hash.code
    hashSize := c.hash.size }

/-! ### Bitswap wire messages (`bitswap/schema`, decoded form)

`prost` (de)serialisation is abstracted: `Core.handle_message` decodes its
input bytes into a `Message` and `Core.try_build_message` encodes one, so
the model works directly on decoded `Message` records. An inbound wantlist
entry's `block` field holds the result of `Cid::read_bytes` on the wire
bytes (`none` models a CID parse failure, which the handler skips). -/

/-- A wantlist entry (`message.wantlist.entries[i]`). -/
structure Entry where
  /-- Result of `Cid::read_bytes(entry.block)`. -/
  block : Option Cid
  priority : Int
  cancel : Bool
  /-- Raw `want_type` i32 value; interpreted through `WantType.fromI32`. -/
  wantType : Int
  sendDontHave : Bool
  deriving DecidableEq, Repr

/-- The `WantType` protobuf enum: `Block = 0`, `Have = 1`. -/
inductive WantType
  | wantBlock
  | wantHave
  deriving DecidableEq, Repr

/-- `WantType::from_i32`: `none` models an unrecognised value. -/
def WantType.fromI32 (n : Int) : Option WantType :=
  if n = 0 then some .wantBlock
  else if n = 1 then some .wantHave
  else none

/-- An inbound wantlist. -/
structure Wantlist where
  entries : List Entry
  full : Bool
  deriving DecidableEq, Repr

/-- An outbound block (`payload` element): encoded CID prefix plus data. -/
structure MsgBlock where
  prefixBytes : List Nat
  data : List Nat
  deriving DecidableEq, Repr

/-- The `BlockPresenceType` enum values: `Have = 0`, `DontHave = 1`. -/
def blockPresenceTypeHave : Int := 0

/-- `DontHave = 1`. -/
def blockPresenceTypeDontHave : Int := 1

/-- An outbound block presence. -/
structure BlockPresence where
  cid : List Nat
  presenceType : Int
  deriving DecidableEq, Repr

/-- A Bitswap protobuf `Message` (decoded). -/
structure Message where
  wantlist : Option Wantlist
  blocks : List (List Nat)
  payload : List MsgBlock
  blockPresences : List BlockPresence
  pendingBytes : Int
  deriving DecidableEq, Repr

/-! ### The responder state (`bitswap/core.rs`) -/

/-- `MAX_PRESENCES_PER_OUT_MESSAGE` in `core.rs`. -/
def MAX_PRESENCES_PER_OUT_MESSAGE : Nat := 100

/-- `MAX_BLOCKS_PER_OUT_MESSAGE` in `core.rs`. -/
def MAX_BLOCKS_PER_OUT_MESSAGE : Nat := 1

/-- The `BlockProvider` capability consumed by the core: `hasBlock` models
`have` and `getBlock` models `get`. -/
structure BlockProvider where
  hasBlock : Multihash → Bool
  getBlock : Multihash → Option (List Nat)

/-- The mutable state of `Core`: the pending-presence queue
(`LinkedHashMap<Cid, bool>`, front first) and the pending-block queue
(`LinkedHashSet<Cid>`, front first), both as lists. Reachable states keep
their keys distinct, as the linked hash containers do. -/
structure CoreState where
  pendingPresences : List (Cid × Bool)
  pendingBlocks : List Cid
  deriving DecidableEq, Repr

/-- `LinkedHashMap::replace(k, v)`: update the value of an existing key in
place (keeping its position in the queue), or append a fresh entry at the
back. -/
def replaceMap (l : List (Cid × Bool)) (c : Cid) (b : Bool) : List (Cid × Bool) :=
  if l.any (fun p => p.1 = c) then
    l.map (fun p => if p.1 = c then (c, b) else p)
  else l ++ [(c, b)]

/-- `LinkedHashSet::replace(v)`: keep an existing element at its position,
or append a fresh one at the back. -/
def replaceSet (l : List Cid) (c : Cid) : List Cid :=
  if c ∈ l then l else l ++ [c]

/-- `Core::num_pending`. -/
def CoreState.numPending (st : CoreState) : Nat :=
  st.pendingPresences.length + st.pendingBlocks.length

/-- `Core::any_pending`. -/
def CoreState.anyPending (st : CoreState) : Bool :=
  !st.pendingPresences.isEmpty || !st.pendingBlocks.isEmpty

/-- The per-entry body of `Core::handle_message`'s loop: skip entries whose
CID failed to parse; `cancel` removes the CID from both queues; otherwise
dispatch on the want type (`Block`: enqueue in the block queue iff the
provider has it; `Have`: enqueue the have-snapshot in the presence queue iff
the provider has it or `send_dont_have` is set; unknown want types are
skipped). -/
def handleEntry (bp : BlockProvider) (st : CoreState) (e : Entry) : CoreState :=
  match e.block with
  | none => st
  | some cid =>
    if e.cancel then
      { pendingPresences := st.pendingPresences.filter (fun p => p.1 ≠ cid)
        pendingBlocks := st.pendingBlocks.filter (fun c => c ≠ cid) }
    else
      match WantType.fromI32 e.wantType with
      | some .wantBlock =>
        if bp.hasBlock cid.hash then
          { st with pendingBlocks := replaceSet st.pendingBlocks cid }
        else st
      | some .wantHave =>
        let hv := bp.hasBlock cid.hash
        if hv || e.sendDontHave then
          { st with pendingPresences := replaceMap st.pendingPresences cid hv }
        else st
      | none => st

/-- `Core::handle_message` on a decoded message: messages without a
wantlist are ignored; a `full` wantlist first clears both queues; then the
entries are applied in order. -/
def handleMessage (bp : BlockProvider) (st : CoreState) (msg : Message) : CoreState :=
  match msg.wantlist with
  | none => st
  | some wl =>
    let st1 := if wl.full then { pendingPresences := [], pendingBlocks := [] } else st
    wl.entries.foldl (handleEntry bp) st1

/-- The presence-draining loop of `Core::try_build_message`: pop up to `n`
entries from the front of the presence queue, mapping each to a
`BlockPresence` with `have → Have`, else `DontHave`. Returns the built
presences and the remaining queue. -/
def popPresences : Nat → List (Cid × Bool) → List BlockPresence × List (Cid × Bool)
  | 0, l => ([], l)
  | _ + 1, [] => ([], [])
  | n + 1, (c, hv) :: rest =>
    let (ps, rem) := popPresences n rest
    (⟨c.toBytes, if hv then blockPresenceTypeHave else blockPresenceTypeDontHave⟩ :: ps, rem)

/-- The block-draining loop of `Core::try_build_message`. Note that the
source's loop condition reads `message.blocks.len() <
MAX_BLOCKS_PER_OUT_MESSAGE`, and `message.blocks` (the legacy field) is
never pushed to, so the condition is always `0 < 1` and the loop drains
the whole block queue, appending to `payload` every popped CID whose data
the provider still has and dropping the rest. -/
def popBlocks (bp : BlockProvider) : List Cid → List MsgBlock
  | [] => []
  | c :: rest =>
    match bp.getBlock c.hash with
    | some d => ⟨(CidPrefixData.fromCid c).toBytes, d⟩ :: popBlocks bp rest
    | none => popBlocks bp rest

/-- `Core::try_build_message`, returning the built message (decoded form;
`prost` encoding abstracted) and the new state: drain up to 100 presences
from the front of the presence queue; only if that yields none, drain the
block queue; return `none` iff both resulting vectors are empty. -/
def tryBuildMessage (bp : BlockProvider) (st : CoreState) : Option Message × CoreState :=
  let pres := popPresences MAX_PRESENCES_PER_OUT_MESSAGE st.pendingPresences
  if pres.1.isEmpty then
    let payload := popBlocks bp st.pendingBlocks
    (if payload.isEmpty then none
     else some ⟨none, [], payload, [], 0⟩,
     { pendingPresences := pres.2, pendingBlocks := [] })
  else
    (some ⟨none, [], [], pres.1, 0⟩,
     { pendingPresences := pres.2, pendingBlocks := st.pendingBlocks })

end Ipfs

namespace Ipfs

/-- C7: for every well-formed CID `c` (digest length matching the recorded
hash size), `CidPrefix::from(c).to_bytes()` is exactly the non-digest
prefix of `c.to_bytes()`: appending the digest recovers `c.to_bytes()`,
and the prefix equals `c.to_bytes()` with the final `hash_size` digest
bytes removed. For V0 the encoding is `varint(hash_code) ‖
varint(hash_size)` with no version or codec varints; for V1 it is
`varint(version) ‖ varint(codec) ‖ varint(hash_code) ‖ varint(hash_size)`. -/
theorem cidPrefixData_toBytes_eq_nondigest (c : Cid)
    (hwf : c.hash.digest.length = c.hash.size) :
    (CidPrefixData.fromCid c).toBytes ++ c.hash.digest = c.toBytes
    ∧ (CidPrefixData.fromCid c).toBytes
        = c.toBytes.take (c.toBytes.length - c.hash.size)
    ∧ (c.version = Version.v0 →
        (CidPrefixData.fromCid c).toBytes
          = varint c.hash.code ++ varint c.hash.size)
    ∧ (c.version = Version.v1 →
        (CidPrefixData.fromCid c).toBytes
          = varint c.version.toNat ++ varint c.codec
              ++ varint c.hash.code ++ varint c.hash.size) := by
  have hpre : (CidPrefixData.fromCid c).toBytes ++ c.hash.digest = c.toBytes := by
    cases hv : c.version <;>
      simp [CidPrefixData.fromCid, CidPrefixData.toBytes, Cid.toBytes,
        Multihash.toBytes, hv, List.append_assoc]
  refine ⟨hpre, ?_, ?_, ?_⟩
  · rw [← hpre]
    have hlen : ((CidPrefixData.fromCid c).toBytes ++ c.hash.digest).length
          - c.hash.size = (CidPrefixData.fromCid c).toBytes.length := by
      simp [hwf]
    rw [hlen, List.take_left]
  · intro hv
    simp [CidPrefixData.fromCid, CidPrefixData.toBytes, hv]
  · intro hv
    simp [CidPrefixData.fromCid, CidPrefixData.toBytes, hv, List.append_assoc]

/-- Witness for C7 at a concrete V0 CID with a 2-byte digest. -/
theorem cidPrefixData_toBytes_eq_nondigest_witness :
    (CidPrefixData.fromCid ⟨Version.v0, 0x70, ⟨0x12, 2, [5, 6]⟩⟩).toBytes
        ++ [5, 6]
      = Cid.toBytes ⟨Version.v0, 0x70, ⟨0x12, 2, [5, 6]⟩⟩ :=
  (cidPrefixData_toBytes_eq_nondigest ⟨Version.v0, 0x70, ⟨0x12, 2, [5, 6]⟩⟩
    (by decide)).1

end Ipfs

namespace Ipfs

/-! ### Concrete fixtures used by witnesses and counterexamples -/

/-- A concrete V1 CID with a 2-byte digest. -/
def cidA : Cid := ⟨Version.v1, 0x55, ⟨0xb220, 2, [1, 2]⟩⟩

/-- A second concrete CID, distinct from `cidA`. -/
def cidB : Cid := ⟨Version.v1, 0x55, ⟨0xb220, 2, [3, 4]⟩⟩

/-- A block provider that has every block, with body `[9]`. -/
def bpAll : BlockProvider := ⟨fun _ => true, fun _ => some [9]⟩

/-- A block provider that has no block. -/
def bpNone : BlockProvider := ⟨fun _ => false, fun _ => none⟩

/-- `c` is absent from both pending queues of `st`. -/
def cidAbsent (st : CoreState) (c : Cid) : Prop :=
  (∀ p ∈ st.pendingPresences, p.1 ≠ c) ∧ c ∉ st.pendingBlocks

instance instDecidableCidAbsent (st : CoreState) (c : Cid) :
    Decidable (cidAbsent st c) :=
  inferInstanceAs
    (Decidable ((∀ p ∈ st.pendingPresences, p.1 ≠ c) ∧ c ∉ st.pendingBlocks))

/-! ### Helper lemmas about queue operations -/

theorem mem_replaceMap {l : List (Cid × Bool)} {c : Cid} {b : Bool} {p : Cid × Bool}
    (h : p ∈ replaceMap l c b) : p ∈ l ∨ p.1 = c := by
  unfold replaceMap at h
  split at h
  · rcases List.mem_map.1 h with ⟨q, hq, hfq⟩
    by_cases hqc : q.1 = c
    · right
      rw [if_pos hqc] at hfq
      subst hfq
      rfl
    · left
      rw [if_neg hqc] at hfq
      exact hfq ▸ hq
  · rcases List.mem_append.1 h with h1 | h1
    · exact Or.inl h1
    · right
      simp at h1
      simp [h1]

theorem mem_replaceSet {l : List Cid} {c x : Cid}
    (h : x ∈ replaceSet l c) : x ∈ l ∨ x = c := by
  unfold replaceSet at h
  split at h
  · exact Or.inl h
  · rcases List.mem_append.1 h with h1 | h1
    · exact Or.inl h1
    · right
      simpa using h1

theorem cidAbsent_handleEntry_cancel (bp : BlockProvider) (st : CoreState)
    (e : Entry) (c : Cid) (hc : e.cancel = true) (hb : e.block = some c) :
    cidAbsent (handleEntry bp st e) c := by
  simp only [handleEntry, hb, hc, if_true]
  constructor
  · intro p hp
    have := List.of_mem_filter hp
    simpa using this
  · intro hmem
    have := List.of_mem_filter hmem
    simp at this

theorem cidAbsent_handleEntry_of_ne (bp : BlockProvider) (st : CoreState)
    (e : Entry) (c : Cid) (hne : e.block ≠ some c) (h : cidAbsent st c) :
    cidAbsent (handleEntry bp st e) c := by
  cases hb : e.block with
  | none => simpa [handleEntry, hb] using h
  | some c2 =>
    have hcc : c2 ≠ c := by
      intro hcon
      exact hne (hcon ▸ hb)
    simp only [handleEntry, hb]
    by_cases hca : e.cancel = true
    · rw [if_pos hca]
      exact ⟨fun p hp => h.1 p (List.mem_of_mem_filter hp),
        fun hmem => h.2 (List.mem_of_mem_filter hmem)⟩
    · rw [if_neg hca]
      cases hwt : WantType.fromI32 e.wantType with
      | none => exact h
      | some wt =>
        cases wt with
        | wantBlock =>
          by_cases hhv : bp.hasBlock c2.hash = true
          · rw [if_pos hhv]
            refine ⟨h.1, ?_⟩
            intro hmem
            rcases mem_replaceSet hmem with h1 | h1
            · exact h.2 h1
            · exact hcc h1.symm
          · rw [if_neg hhv]
            exact h
        | wantHave =>
          by_cases hor : (bp.hasBlock c2.hash || e.sendDontHave) = true
          · rw [if_pos hor]
            refine ⟨?_, h.2⟩
            intro p hp
            rcases mem_replaceMap hp with h1 | h1
            · exact h.1 p h1
            · intro hpc
              exact hcc (h1 ▸ hpc)
          · rw [if_neg hor]
            exact h

theorem cidAbsent_foldl (bp : BlockProvider) (c : Cid) :
    ∀ (l : List Entry) (st : CoreState), (∀ e ∈ l, e.block ≠ some c) →
      cidAbsent st c → cidAbsent (l.foldl (handleEntry bp) st) c := by
  intro l
  induction l with
  | nil => intro st _ h; simpa using h
  | cons e rest ih =>
    intro st hl h
    simp only [List.foldl_cons]
    exact ih _ (fun e2 he2 => hl e2 (List.mem_cons_of_mem _ he2))
      (cidAbsent_handleEntry_of_ne bp st e c (hl e (List.mem_cons_self _ _)) h)

/-! ### C2 -/

/-- C2 counterexample: the claim as stated fails. In a wantlist whose
first entry cancels `cidA` and whose second entry re-requests it
(Want-Have), the CID carried by the `cancel=true` entry is present in
PendingPresences after `handle_message`. -/
theorem handleMessage_cancel_readd_cex :
    (∃ e ∈ ([⟨some cidA, 0, true, 0, false⟩,
              ⟨some cidA, 0, false, 1, false⟩] : List Entry),
        e.cancel = true ∧ e.block = some cidA)
    ∧ ¬ cidAbsent
        (handleMessage bpAll ⟨[], []⟩
          ⟨some ⟨[⟨some cidA, 0, true, 0, false⟩, ⟨some cidA, 0, false, 1, false⟩],
            false⟩, [], [], [], 0⟩) cidA := by
  decide

/-- C2 (amended): after `handle_message` on a decodable message, every CID
carried by a `cancel=true` entry that no later entry of the same wantlist
carries is absent from both PendingPresences and PendingBlocks. -/
theorem handleMessage_cancel_absent (bp : BlockProvider) (st : CoreState)
    (msg : Message) (wl : Wantlist) (l1 l2 : List Entry) (e : Entry) (c : Cid)
    (hwl : msg.wantlist = some wl)
    (hsplit : wl.entries = l1 ++ e :: l2)
    (hcancel : e.cancel = true) (hblock : e.block = some c)
    (hlater : ∀ e2 ∈ l2, e2.block ≠ some c) :
    cidAbsent (handleMessage bp st msg) c := by
  simp only [handleMessage, hwl, hsplit, List.foldl_append, List.foldl_cons]
  exact cidAbsent_foldl bp c l2 _ hlater
    (cidAbsent_handleEntry_cancel bp _ e c hcancel hblock)

/-- Witness for C2 (amended): cancelling `cidA`, which is pending in both
queues, with no later entry, leaves it absent from both queues. -/
theorem handleMessage_cancel_absent_witness :
    cidAbsent
      (handleMessage bpAll ⟨[(cidA, true)], [cidA]⟩
        ⟨some ⟨[⟨some cidA, 0, true, 0, false⟩], false⟩, [], [], [], 0⟩) cidA :=
  handleMessage_cancel_absent bpAll ⟨[(cidA, true)], [cidA]⟩
    ⟨some ⟨[⟨some cidA, 0, true, 0, false⟩], false⟩, [], [], [], 0⟩
    ⟨[⟨some cidA, 0, true, 0, false⟩], false⟩ [] []
    ⟨some cidA, 0, true, 0, false⟩ cidA rfl rfl rfl rfl (by simp)

end Ipfs

namespace Ipfs

/-! ### C1 -/

/-- C1 fails on the code: with two pending blocks both still held by the
provider, `try_build_message` builds a message whose `payload` has 2
blocks, exceeding `MAX_BLOCKS_PER_OUT_MESSAGE = 1`. The block-draining
loop's condition reads `message.blocks.len()` (the legacy field, never
pushed to) instead of `message.payload.len()`, so it drains the entire
block queue. -/
theorem tryBuildMessage_payload_exceeds_max :
    ((tryBuildMessage bpAll ⟨[], [cidA, cidB]⟩).1.map fun m => m.payload.length)
        = some 2
    ∧ MAX_BLOCKS_PER_OUT_MESSAGE = 1 := by
  decide

/-! ### C3 -/

/-- C3: on a decodable message whose wantlist has `full = true`, both
pending queues are cleared before the entries are applied: the resulting
state is the fold of the entries over the empty state, independent of the
prior queue contents. -/
theorem handleMessage_full_clears (bp : BlockProvider) (msg : Message)
    (wl : Wantlist) (st st2 : CoreState)
    (hwl : msg.wantlist = some wl) (hfull : wl.full = true) :
    handleMessage bp st msg = handleMessage bp st2 msg
    ∧ handleMessage bp st msg
        = wl.entries.foldl (handleEntry bp) ⟨[], []⟩ := by
  refine ⟨?_, ?_⟩ <;> simp [handleMessage, hwl, hfull]

/-- Witness for C3: a `full` wantlist requesting `cidB` produces the same
state from two different prior states. -/
theorem handleMessage_full_clears_witness :
    handleMessage bpAll ⟨[(cidA, true)], [cidA]⟩
        ⟨some ⟨[⟨some cidB, 0, false, 1, false⟩], true⟩, [], [], [], 0⟩
      = handleMessage bpAll ⟨[], [cidB]⟩
        ⟨some ⟨[⟨some cidB, 0, false, 1, false⟩], true⟩, [], [], [], 0⟩ :=
  (handleMessage_full_clears bpAll
    ⟨some ⟨[⟨some cidB, 0, false, 1, false⟩], true⟩, [], [], [], 0⟩
    ⟨[⟨some cidB, 0, false, 1, false⟩], true⟩
    ⟨[(cidA, true)], [cidA]⟩ ⟨[], [cidB]⟩ rfl rfl).1

/-! ### C4 -/

/-- C4: a non-cancel Want-Block entry whose CID the block provider does
not have leaves the state (both pending queues) unchanged — no block is
queued and no DontHave presence is queued, whatever `send_dont_have` is. -/
theorem handleEntry_wantBlock_missing_noop (bp : BlockProvider) (st : CoreState)
    (e : Entry) (c : Cid)
    (hcancel : e.cancel = false)
    (hwt : WantType.fromI32 e.wantType = some WantType.wantBlock)
    (hblock : e.block = some c)
    (hmiss : bp.hasBlock c.hash = false) :
    handleEntry bp st e = st := by
  simp [handleEntry, hblock, hcancel, hwt, hmiss]

/-- Witness for C4: a Want-Block for `cidA` against the empty provider
with `send_dont_have = true` changes nothing. -/
theorem handleEntry_wantBlock_missing_noop_witness :
    handleEntry bpNone ⟨[(cidB, true)], [cidB]⟩ ⟨some cidA, 0, false, 0, true⟩
      = ⟨[(cidB, true)], [cidB]⟩ :=
  handleEntry_wantBlock_missing_noop bpNone ⟨[(cidB, true)], [cidB]⟩
    ⟨some cidA, 0, false, 0, true⟩ cidA rfl rfl rfl rfl

/-! ### C5 -/

/-- C5: a non-cancel Want-Have entry replaces `(cid, have)` in
PendingPresences (via position-preserving `replace`) exactly when `have`
is true or `send_dont_have` is set, leaving PendingBlocks unchanged; when
`have` is false and `send_dont_have` is unset, the state is unchanged. -/
theorem handleEntry_wantHave_eq (bp : BlockProvider) (st : CoreState)
    (e : Entry) (c : Cid)
    (hcancel : e.cancel = false)
    (hwt : WantType.fromI32 e.wantType = some WantType.wantHave)
    (hblock : e.block = some c) :
    handleEntry bp st e
      = if bp.hasBlock c.hash || e.sendDontHave then
          { st with
            pendingPresences := replaceMap st.pendingPresences c (bp.hasBlock c.hash) }
        else st := by
  simp [handleEntry, hblock, hcancel, hwt]

/-- Witness for C5: a Want-Have for missing `cidA` with
`send_dont_have = true` enqueues `(cidA, false)`. -/
theorem handleEntry_wantHave_eq_witness :
    handleEntry bpNone ⟨[], []⟩ ⟨some cidA, 0, false, 1, true⟩
      = if bpNone.hasBlock cidA.hash || true then
          { pendingPresences := replaceMap [] cidA (bpNone.hasBlock cidA.hash)
            pendingBlocks := [] }
        else ⟨[], []⟩ :=
  handleEntry_wantHave_eq bpNone ⟨[], []⟩ ⟨some cidA, 0, false, 1, true⟩ cidA
    rfl rfl rfl

end Ipfs

namespace Ipfs

/-! ### C6 -/

/-- C6: re-enqueuing a CID already present in its target queue keeps its
ordinal position: a Want-Block for a CID already in PendingBlocks leaves
the queue identical; a Want-Have for a CID already keyed in
PendingPresences rewrites exactly that CID's entry in place with the
freshly computed `have` snapshot, preserving the key sequence. -/
theorem handleEntry_replace_preserves_position (bp : BlockProvider)
    (st : CoreState) (e : Entry) (c : Cid)
    (hcancel : e.cancel = false) (hblock : e.block = some c) :
    (WantType.fromI32 e.wantType = some WantType.wantBlock →
      c ∈ st.pendingBlocks →
      (handleEntry bp st e).pendingBlocks = st.pendingBlocks)
    ∧ (WantType.fromI32 e.wantType = some WantType.wantHave →
        (bp.hasBlock c.hash || e.sendDontHave) = true →
        c ∈ st.pendingPresences.map Prod.fst →
        (handleEntry bp st e).pendingPresences
            = st.pendingPresences.map
                (fun p => if p.1 = c then (c, bp.hasBlock c.hash) else p)
          ∧ (handleEntry bp st e).pendingPresences.map Prod.fst
              = st.pendingPresences.map Prod.fst) := by
  constructor
  · intro hwt hmem
    by_cases hhv : bp.hasBlock c.hash = true
    · simp [handleEntry, hblock, hcancel, hwt, hhv, replaceSet, hmem]
    · simp [handleEntry, hblock, hcancel, hwt, hhv]
  · intro hwt hor hmem
    have hany : (st.pendingPresences.any fun p => p.1 = c) = true := by
      rcases List.mem_map.1 hmem with ⟨q, hq, hq1⟩
      exact List.any_eq_true.2 ⟨q, hq, by simp [hq1]⟩
    have h1 : (handleEntry bp st e).pendingPresences
        = st.pendingPresences.map
            (fun p => if p.1 = c then (c, bp.hasBlock c.hash) else p) := by
      simp [handleEntry, hblock, hcancel, hwt, hor, replaceMap, hany]
    refine ⟨h1, ?_⟩
    rw [h1, List.map_map]
    have hfst : ∀ p : Cid × Bool,
        ((fun p => if p.1 = c then (c, bp.hasBlock c.hash) else p) p).1 = p.1 := by
      intro p
      by_cases hpc : p.1 = c <;> simp [hpc]
    exact List.map_congr_left fun a _ => hfst a

/-- Witness for C6: re-requesting `cidB`, already at the back of
PendingBlocks, leaves the block queue identical. -/
theorem handleEntry_replace_preserves_position_witness :
    (handleEntry bpAll ⟨[(cidA, false), (cidB, false)], [cidA, cidB]⟩
        ⟨some cidB, 0, false, 0, false⟩).pendingBlocks = [cidA, cidB] :=
  (handleEntry_replace_preserves_position bpAll
    ⟨[(cidA, false), (cidB, false)], [cidA, cidB]⟩
    ⟨some cidB, 0, false, 0, false⟩ cidB rfl rfl).1 rfl (by decide)

/-! ### C10 -/

theorem popPresences_cons (n : Nat) (c : Cid) (hv : Bool)
    (rest : List (Cid × Bool)) :
    popPresences (n + 1) ((c, hv) :: rest)
      = (⟨c.toBytes, if hv then blockPresenceTypeHave else blockPresenceTypeDontHave⟩
          :: (popPresences n rest).1, (popPresences n rest).2) := by
  rcases h : popPresences n rest with ⟨ps, rem⟩
  simp [popPresences, h]

theorem tryBuildMessage_of_presences_cons (bp : BlockProvider) (st : CoreState)
    (c : Cid) (hv : Bool) (rest : List (Cid × Bool))
    (hl : st.pendingPresences = (c, hv) :: rest) :
    tryBuildMessage bp st
      = (some ⟨none, [], [],
            (popPresences MAX_PRESENCES_PER_OUT_MESSAGE st.pendingPresences).1, 0⟩,
          ⟨(popPresences MAX_PRESENCES_PER_OUT_MESSAGE st.pendingPresences).2,
            st.pendingBlocks⟩) := by
  have hne2 : (popPresences MAX_PRESENCES_PER_OUT_MESSAGE st.pendingPresences).1
      ≠ [] := by
    rw [hl, show MAX_PRESENCES_PER_OUT_MESSAGE = 99 + 1 from rfl, popPresences_cons]
    simp
  have hempty : (popPresences MAX_PRESENCES_PER_OUT_MESSAGE
      st.pendingPresences).1.isEmpty = false := by
    rcases hx : (popPresences MAX_PRESENCES_PER_OUT_MESSAGE st.pendingPresences).1
      with _ | _
    · exact absurd hx hne2
    · simp
  unfold tryBuildMessage
  simp [hempty]

/-- C10: when PendingPresences is non-empty, `try_build_message` leaves
PendingBlocks unchanged and does not consult the block provider at all (in
particular `get` is never invoked): the entire call is insensitive to the
provider. -/
theorem tryBuildMessage_presence_frame (bp : BlockProvider) (st : CoreState)
    (hne : st.pendingPresences ≠ []) :
    (tryBuildMessage bp st).2.pendingBlocks = st.pendingBlocks
    ∧ ∀ bp2 : BlockProvider, tryBuildMessage bp2 st = tryBuildMessage bp st := by
  rcases hl : st.pendingPresences with _ | ⟨⟨c, hv⟩, rest⟩
  · exact absurd hl hne
  · constructor
    · rw [tryBuildMessage_of_presences_cons bp st c hv rest hl]
    · intro bp2
      rw [tryBuildMessage_of_presences_cons bp st c hv rest hl,
        tryBuildMessage_of_presences_cons bp2 st c hv rest hl]

/-- Witness for C10: with `(cidA, true)` pending and `cidB` in the block
queue, the block queue survives a build and the provider is irrelevant. -/
theorem tryBuildMessage_presence_frame_witness :
    (tryBuildMessage bpAll ⟨[(cidA, true)], [cidB]⟩).2.pendingBlocks = [cidB]
    ∧ tryBuildMessage bpNone ⟨[(cidA, true)], [cidB]⟩
        = tryBuildMessage bpAll ⟨[(cidA, true)], [cidB]⟩ :=
  ⟨(tryBuildMessage_presence_frame bpAll ⟨[(cidA, true)], [cidB]⟩ (by decide)).1,
   (tryBuildMessage_presence_frame bpAll ⟨[(cidA, true)], [cidB]⟩ (by decide)).2
      bpNone⟩

end Ipfs

namespace Ipfs

/-! ### Block provider adapter (`block_provider.rs`) -/

/-- `BlakeTwo256::MULTIHASH_CODE` (`HasMultihashCode` impl). -/
def BLAKE2B_256_MULTIHASH_CODE : Nat := 0xb220

/-- The `BlockBackend` consumed by `IndexedTransactions`, modelled as
fallible lookups keyed by the native chain hash (digest bytes of the
configured hasher's output length). -/
structure ChainClient where
  hasIndexedTransaction : List Nat → Except String Bool
  indexedTransaction : List Nat → Except String (Option (List Nat))

/-- `try_from_multihash::<H>`: reject a multihash whose code differs from
`H::MULTIHASH_CODE` or whose digest length differs from the hash output
length `hashLen`; otherwise the native hash is the copied digest bytes. -/
def tryFromMultihash (multihashCode hashLen : Nat) (mh : Multihash) :
    Option (List Nat) :=
  if mh.code ≠ multihashCode then none
  else if mh.digest.length ≠ hashLen then none
  else some mh.digest

/-- `IndexedTransactions::have`: `false` on a non-convertible multihash or
a backend error, else the backend's answer. -/
def IndexedTransactions.hasBlock (multihashCode hashLen : Nat)
    (client : ChainClient) (mh : Multihash) : Bool :=
  match tryFromMultihash multihashCode hashLen mh with
  | none => false
  | some h =>
    match client.hasIndexedTransaction h with
    | .ok b => b
    | .error _ => false

/-- `IndexedTransactions::get`: `none` on a non-convertible multihash or a
backend error, else the backend's answer. -/
def IndexedTransactions.getBlock (multihashCode hashLen : Nat)
    (client : ChainClient) (mh : Multihash) : Option (List Nat) :=
  match tryFromMultihash multihashCode hashLen mh with
  | none => none
  | some h =>
    match client.indexedTransaction h with
    | .ok b => b
    | .error _ => none

/-! ### C8 -/

/-- C8: a multihash whose code differs from the configured hasher's code,
or whose digest length differs from the hash output length, makes
`IndexedTransactions::have` return `false` and `IndexedTransactions::get`
return `None` — for every backend, so the backend is never consulted. -/
theorem indexedTransactions_reject_mismatch (multihashCode hashLen : Nat)
    (client : ChainClient) (mh : Multihash)
    (h : mh.code ≠ multihashCode ∨ mh.digest.length ≠ hashLen) :
    IndexedTransactions.hasBlock multihashCode hashLen client mh = false
    ∧ IndexedTransactions.getBlock multihashCode hashLen client mh = none := by
  have hnone : tryFromMultihash multihashCode hashLen mh = none := by
    by_cases hc : mh.code = multihashCode
    · rcases h with h | h
      · exact absurd hc h
      · simp [tryFromMultihash, hc, h]
    · simp [tryFromMultihash, hc]
  constructor <;>
    simp [IndexedTransactions.hasBlock, IndexedTransactions.getBlock, hnone]

/-- Witness for C8: a multihash with code `0` and a 2-byte digest is
rejected by a Blake2b-256 (`0xb220`, 32-byte) adapter whose backend would
happily answer. -/
theorem indexedTransactions_reject_mismatch_witness :
    IndexedTransactions.hasBlock BLAKE2B_256_MULTIHASH_CODE 32
        ⟨fun _ => .ok true, fun _ => .ok (some [1])⟩ ⟨0, 2, [1, 2]⟩ = false
    ∧ IndexedTransactions.getBlock BLAKE2B_256_MULTIHASH_CODE 32
        ⟨fun _ => .ok true, fun _ => .ok (some [1])⟩ ⟨0, 2, [1, 2]⟩ = none :=
  indexedTransactions_reject_mismatch BLAKE2B_256_MULTIHASH_CODE 32
    ⟨fun _ => .ok true, fun _ => .ok (some [1])⟩ ⟨0, 2, [1, 2]⟩
    (Or.inl (by decide))

/-! ### DHT behaviour (`dht.rs`) -/

/-- Multiaddr protocol components as seen by `is_global_addr`. IP
addresses are abstract (`Nat`); whether an IP is global
(`ip_network::IpNetwork::is_global`) is a predicate parameter. -/
inductive MaProtocol
  | ip4 (a : Nat)
  | ip6 (a : Nat)
  | dns (name : List Nat)
  | dns4 (name : List Nat)
  | dns6 (name : List Nat)
  | tcp (port : Nat)
  | other (tag : Nat)
  deriving DecidableEq, Repr

/-- `is_global_addr`: look only at the first component; Ip4/Ip6 defer to
the globality predicate, DNS names are assumed global, anything else
(including an empty multiaddr) is not global. -/
def isGlobalAddr (ip4Global ip6Global : Nat → Bool)
    (addr : List MaProtocol) : Bool :=
  match addr.head? with
  | some (.ip4 a) => ip4Global a
  | some (.ip6 a) => ip6Global a
  | some (.dns _) => true
  | some (.dns4 _) => true
  | some (.dns6 _) => true
  | _ => false

/-- The DHT behaviour state seen by `add_self_reported_address`: the inner
Kademlia's routing table (modelled as the list of added `(peer, address)`
pairs, `add_address` appending) and its protocol names. -/
structure DhtBehaviour where
  kadTable : List (Nat × List MaProtocol)
  kadProtocolNames : List (List Nat)
  deriving DecidableEq, Repr

/-- `Behaviour::add_self_reported_address`: add the address to the routing
table iff it is global and the peer's supported protocols intersect the
Kademlia protocol names. -/
def addSelfReportedAddress (ip4Global ip6Global : Nat → Bool)
    (st : DhtBehaviour) (peerId : Nat) (supportedProtocols : List (List Nat))
    (addr : List MaProtocol) : DhtBehaviour :=
  if isGlobalAddr ip4Global ip6Global addr
      && supportedProtocols.any
          (fun a => st.kadProtocolNames.any fun b => a = b) then
    { st with kadTable := st.kadTable ++ [(peerId, addr)] }
  else st

/-! ### C9 -/

/-- C9: `add_self_reported_address` appends the address to the routing
table exactly when the address is global (first component a global
Ip4/Ip6 address or a DNS name) and the supported protocols intersect the
Kademlia protocol names; otherwise the behaviour state is untouched. -/
theorem addSelfReportedAddress_iff (ip4Global ip6Global : Nat → Bool)
    (st : DhtBehaviour) (peerId : Nat) (supportedProtocols : List (List Nat))
    (addr : List MaProtocol) :
    ((addSelfReportedAddress ip4Global ip6Global st peerId supportedProtocols
          addr).kadTable = st.kadTable ++ [(peerId, addr)]
      ↔ (isGlobalAddr ip4Global ip6Global addr = true
          ∧ ∃ p ∈ supportedProtocols, p ∈ st.kadProtocolNames))
    ∧ (addSelfReportedAddress ip4Global ip6Global st peerId supportedProtocols
          addr = st
      ↔ ¬(isGlobalAddr ip4Global ip6Global addr = true
          ∧ ∃ p ∈ supportedProtocols, p ∈ st.kadProtocolNames)) := by
  have hcond : (isGlobalAddr ip4Global ip6Global addr
      && supportedProtocols.any
          (fun a => st.kadProtocolNames.any fun b => a = b)) = true
      ↔ (isGlobalAddr ip4Global ip6Global addr = true
          ∧ ∃ p ∈ supportedProtocols, p ∈ st.kadProtocolNames) := by
    simp [List.any_eq_true]
  have happ : st.kadTable ++ [(peerId, addr)] ≠ st.kadTable := by
    intro h
    have hlen := congrArg List.length h
    simp at hlen
  by_cases hc : (isGlobalAddr ip4Global ip6Global addr
      && supportedProtocols.any
          (fun a => st.kadProtocolNames.any fun b => a = b)) = true
  · constructor
    · simp only [addSelfReportedAddress, hc, if_true]
      exact iff_of_true trivial (hcond.1 hc)
    · simp only [addSelfReportedAddress, hc, if_true]
      refine iff_of_false ?_ ?_
      · intro h
        exact happ (congrArg DhtBehaviour.kadTable h)
      · intro h
        exact h (hcond.1 hc)
  · have hnc : ¬(isGlobalAddr ip4Global ip6Global addr = true
        ∧ ∃ p ∈ supportedProtocols, p ∈ st.kadProtocolNames) :=
      fun hx => hc (hcond.2 hx)
    constructor
    · simp only [addSelfReportedAddress]
      rw [if_neg hc]
      exact iff_of_false (fun h => happ h.symm) hnc
    · simp only [addSelfReportedAddress]
      rw [if_neg hc]
      exact iff_of_true rfl hnc

end Ipfs
